import Mathlib

/-!
Verification of the CADToVectorGraphics render pipeline.

The Python sources are shallowly embedded over exact rational arithmetic:
numpy float matrices become lists of rational columns, stateful objects
become explicit state records, and fallible operations return `Except`.
Floating-point square roots are modelled by `ratSqrt`, a computable rational
approximation that is exact on perfect squares; every concrete input used in
a theorem below is chosen so that the square roots involved are exact, and
the universally quantified theorems rely only on sign and order facts that
hold for the true floating-point operations as well.
-/

namespace CADVG

/-- A 3-vector, one column of a numpy (3 × N) matrix. -/
abbrev Vec3 : Type := ℚ × ℚ × ℚ

/-- A 2-vector, one column of a numpy (2 × N) matrix. -/
abbrev Vec2 : Type := ℚ × ℚ

/-- Dot product of two 3-vectors (`transpose(a) @ b` in the source). -/
def dot3 (a b : Vec3) : ℚ :=
  a.1 * b.1 + a.2.1 * b.2.1 + a.2.2 * b.2.2

/-- Cross product of two 3-vectors (`numpy.cross(a, b, axis=0)` per column). -/
def cross3 (a b : Vec3) : Vec3 :=
  ( a.2.1 * b.2.2 - a.2.2 * b.2.1
  , a.2.2 * b.1 - a.1 * b.2.2
  , a.1 * b.2.1 - a.2.1 * b.1 )

/-- Integer Newton iteration for the floor square root, with explicit fuel so
that the kernel can evaluate it on literals.  The iteration is strictly
decreasing while it continues, so any fuel at least the starting value is
enough for it to reach its fixed point. -/
def isqrtGo (n x : Nat) : Nat → Nat
  | 0 => x
  | fuel + 1 =>
    let xn := (x + n / x) / 2
    if xn < x then isqrtGo n xn fuel else x

/-- Floor square root of a natural number (Newton's method). -/
def intSqrt (n : Nat) : Nat :=
  if n ≤ 1 then n else isqrtGo n n n

/-- Model of the floating-point square root on rationals: for `q = n / d ≥ 0`
it returns `intSqrt (n · d) / d`, which equals the true square root whenever
that is rational (in particular on perfect squares) and is always
nonnegative.  Negative arguments are mapped to `0`; no claim below evaluates
it there. -/
def ratSqrt (q : ℚ) : ℚ :=
  if q ≤ 0 then 0 else (intSqrt (q.num.toNat * q.den) : ℚ) / (q.den : ℚ)

/-- Vector addition on columns. -/
def addV (a b : Vec3) : Vec3 := (a.1 + b.1, a.2.1 + b.2.1, a.2.2 + b.2.2)

/-- Vector subtraction on columns. -/
def subV (a b : Vec3) : Vec3 := (a.1 - b.1, a.2.1 - b.2.1, a.2.2 - b.2.2)

/-- Scalar multiplication of a column. -/
def smulV (c : ℚ) (a : Vec3) : Vec3 := (c * a.1, c * a.2.1, c * a.2.2)

/-- util/geometry.py `cNormalize`, applied to one column: divide the column by
its Euclidean norm and replace NaN by 0.  In floating point a zero column
yields `0/0 = NaN` in every entry, which the `where(isnan(n), 0, n)` guard
turns back into the zero column; over ℚ the division by a zero norm yields
the zero column directly, which agrees with that behaviour. -/
def cNormalizeCol (v : Vec3) : Vec3 :=
  let n := ratSqrt (dot3 v v)
  if n = 0 then (0, 0, 0) else (v.1 / n, v.2.1 / n, v.2.2 / n)

/-- util/geometry.py `cNormalize` on a (3 × N) matrix, column by column. -/
def cNormalize (m : List Vec3) : List Vec3 :=
  m.map cNormalizeCol

/-- One floating-point scalar that may fail to be finite: `none` stands for
NaN or ±inf, `some q` for the finite value `q`. -/
abbrev FloatQ : Type := Option ℚ

/-- A 3-vector of possibly non-finite floats. -/
abbrev Vec3F : Type := FloatQ × FloatQ × FloatQ

/-- util/geometry.py `normalize`: `divide(matrix, norm(matrix))` with no NaN
guard.  When the norm is zero every component becomes `0/0 = NaN` (a zero
norm over ℚ forces a zero vector), hence `none`; otherwise the result is the
finite component-wise quotient. -/
def normalizeFloat (v : Vec3) : Vec3F :=
  let n := ratSqrt (dot3 v v)
  if n = 0 then (none, none, none)
  else (some (v.1 / n), some (v.2.1 / n), some (v.2.2 / n))

/-- The error kind that §7 of the specification assigns to a zero view
vector.  The source never defines or raises it; it appears here only so that
the construction of a `Camera` can be typed as a fallible operation. -/
inductive CameraError : Type where
  | invalidCamera : CameraError
deriving DecidableEq

/-- compose/components/view.py `Camera`: position, stored view direction and
stored horizontal direction (the latter is always `normalize((0,0,0))`). -/
structure CameraState : Type where
  position : Vec3
  view : Vec3F
  horizontal : Vec3F
deriving DecidableEq

/-- compose/components/view.py `Camera.__init__`: normalizes the given view
vector and the constant `(0, 0, 0)` horizontal direction.  The body contains
no validation and no `raise`, so construction always returns `Except.ok`. -/
def cameraInit (view : Vec3) : Except CameraError CameraState :=
  Except.ok { position := (0, 0, 0), view := normalizeFloat view
            , horizontal := normalizeFloat (0, 0, 0) }

/-- compose/components/representation/mesh.py `MeshModel._triangleNormals`,
restricted to one facet column: the column-normalized cross product
`(v1 − v0) × (v2 − v1)` of the vertices selected by the three ids.
Out-of-range vertex ids (never produced by a well-formed mesh) read the zero
vector. -/
def triangleNormal (p : List Vec3) (i0 i1 i2 : Nat) : Vec3 :=
  let v0 := p.getD i0 (0, 0, 0)
  let v1 := p.getD i1 (0, 0, 0)
  let v2 := p.getD i2 (0, 0, 0)
  cNormalizeCol (cross3 (subV v1 v0) (subV v2 v1))

/-- compose/components/representation/mesh.py `MeshModel._calculateNormals`.
A topology is the list of facet vertex-id tuples in insertion order, so facet
ids are list positions.  Triangle facets contribute their triangle normal.
For quadrilateral facets the source computes
`normalsOfQuadrilaterals = self._triangleNormals(quadrilaterals[[0,1,2],:])`
and the following line `+ self._triangleNormals(quadrilaterals[[0,2,3],:])`
is a separate expression statement whose value is discarded, so only the
first sub-triangle's normal is stored.  Facets of any other arity keep the
zero column from the `zeros((3, nFaces))` initialisation.  The assembled
matrix is column-normalized once more on return. -/
def calculateNormals (geometry : List Vec3) (topology : List (List Nat)) :
    List Vec3 :=
  cNormalize (topology.map (fun f =>
    match f with
    | [a, b, c] => triangleNormal geometry a b c
    | [a, b, c, _d] => triangleNormal geometry a b c
    | _ => (0, 0, 0)))

/-- Modelled from the spec, §3: "Normal of a triangle is the normalized cross
product `(v1−v0) × (v2−v1)`; normal of a quad is the normalized sum of its
two sub-triangle normals", the sub-triangles being vertex ids `{0,1,2}` and
`{2,3,0}` of the quad `[a, b, c, d]`. -/
def quadNormalSpec (geometry : List Vec3) (a b c d : Nat) : Vec3 :=
  cNormalizeCol (addV (triangleNormal geometry a b c)
                      (triangleNormal geometry c d a))

/-- compose/components/illuminate.py `LightSource`: a position and an RGBA
color whose channels are 8-bit style integers (the class performs no range
validation). -/
structure LightSource : Type where
  position : Vec3
  colorR : ℤ
  colorG : ℤ
  colorB : ℤ
  colorA : ℤ
deriving DecidableEq

/-- compose/components/bind.py `SolidRepresentation`, restricted to the data
the projector reads: the mesh topology (facet vertex-id tuples in insertion
order), the derived `centers` and `normals` tables, the base RGBA color and
the `MaterialProperties` record `(ka, kd, ks, alpha)`.  Neither the color nor
the material coefficients are validated anywhere in the source. -/
structure SolidRepresentation : Type where
  topology : List (List Nat)
  normals : List Vec3
  centers : List Vec3
  colorR : ℤ
  colorG : ℤ
  colorB : ℤ
  colorA : ℤ
  ka : ℚ
  kd : ℚ
  ks : ℚ
  alpha : ℚ
deriving DecidableEq

/-- numpy `round`: round half to even, returning an integer-valued float. -/
def roundHalfEven (x : ℚ) : ℚ :=
  if x - (⌊x⌋ : ℚ) < 1/2 then ((⌊x⌋ : ℤ) : ℚ)
  else if 1/2 < x - (⌊x⌋ : ℚ) then ((⌊x⌋ + 1 : ℤ) : ℚ)
  else if ⌊x⌋ % 2 = 0 then ((⌊x⌋ : ℤ) : ℚ) else ((⌊x⌋ + 1 : ℤ) : ℚ)

/-- Model of the floating-point power `x ** a` as the shader uses it (the
base, a clamped cosine, is always nonnegative).  For a NONNEGATIVE exponent
the float result is finite and nonnegative and the model agrees in sign: exact
for integer exponents, the square-root model for half-integer exponents, an
integer-exponent truncation otherwise.  For a NEGATIVE exponent on a ZERO
base, however, numpy yields `+inf` (with only a RuntimeWarning), and its
subsequent multiplication by a zero factor (`ks = 0` or a zero light
channel) yields NaN, which survives the final clamp and round — no rational
value can represent that path.  The first branch below returns the junk
value 0 there; it is outside the modelled domain, no theorem relies on it
(`fpowQ_nonneg` requires `0 ≤ a` and refutes this branch), and the amended
claim C6 therefore assumes a nonnegative shininess `alpha`. -/
def fpowQ (x a : ℚ) : ℚ :=
  if x = 0 ∧ a < 0 then 0
  else if a.den = 1 then x ^ a.num
  else if a.den = 2 then ratSqrt (x ^ a.num)
  else x ^ (a.num / (a.den : ℤ))

/-- The `where(c < 0., 0., c)` clamps the shader applies to both cosines. -/
def shaderCos (c : ℚ) : ℚ :=
  if c < 0 then 0 else c

/-- The `return round( where( colors > 255, 255, colors ) )` step of
`Projector._determineFaceColors`, on one matrix entry.  Note that the source
clamps from above only; there is no clamp at 0. -/
def clampRound (x : ℚ) : ℚ :=
  roundHalfEven (if 255 < x then 255 else x)

/-- One entry of the shader's RGB accumulator for a single light: the ambient
term `(1/nSources)·C_base·ka` (added once per light), the diffuse term
`kd·cos_d·C_light`, and the specular term `ks·(cos_s ** alpha)·C_light`
zeroed wherever the diffuse term is negative. -/
def shadeCell (solid : SolidRepresentation) (nSources : Nat)
    (cosd rcos : ℚ) (base light : ℤ) : ℚ :=
  (1 / (nSources : ℚ)) * (base : ℚ) * solid.ka
  + solid.kd * cosd * (light : ℚ)
  + (if solid.kd * cosd * (light : ℚ) < 0 then 0
     else solid.ks * fpowQ rcos solid.alpha * (light : ℚ))

/-- The contribution of one light source to the RGB accumulator of one facet
in `Projector._determineFaceColors`: the light direction is the column
normalization of `position − center`, `cos_d` is its clamped dot product
with the facet normal, the reflection direction is `2·cos_d·n − l`, and
`cos_s` is the clamped dot product of the reflection with `−view`. -/
def lightContribution (view : Vec3) (solid : SolidRepresentation)
    (nSources : Nat) (normal center : Vec3) (l : LightSource) : Vec3 :=
  let viewDirection := smulV (-1) view
  let lsd := cNormalizeCol (subV l.position center)
  let cosd := shaderCos (dot3 lsd normal)
  let refl := subV (smulV (2 * cosd) normal) lsd
  let rcos := shaderCos (dot3 refl viewDirection)
  ( shadeCell solid nSources cosd rcos solid.colorR l.colorR
  , shadeCell solid nSources cosd rcos solid.colorG l.colorG
  , shadeCell solid nSources cosd rcos solid.colorB l.colorB )

/-- The RGB accumulator of facet `j` after the loop over all light sources in
`Projector._determineFaceColors`. -/
def facetRGBAccum (view : Vec3) (solid : SolidRepresentation)
    (lights : List LightSource) (j : Nat) : Vec3 :=
  lights.foldl
    (fun acc l => addV acc
      (lightContribution view solid lights.length
        (solid.normals.getD j (0, 0, 0))
        (solid.centers.getD j (0, 0, 0)) l))
    (0, 0, 0)

/-- render/components/project.py `Projector._determineFaceColors`, returning
the result matrix as its list of rows.  With an empty light list the source
returns the `ambient` matrix, which has only the three RGB rows (each a tile
of the base color channel) and is neither clamped nor rounded; otherwise it
returns the four-row RGBA matrix whose RGB rows accumulate the per-light
contributions, whose alpha row tiles the base alpha, and whose every entry is
clamped above at 255 and rounded half-to-even. -/
def determineFaceColorsSolid (view : Vec3) (solid : SolidRepresentation)
    (lights : List LightSource) : List (List ℚ) :=
  if lights.length = 0 then
    [ List.replicate solid.normals.length ((solid.colorR : ℚ))
    , List.replicate solid.normals.length ((solid.colorG : ℚ))
    , List.replicate solid.normals.length ((solid.colorB : ℚ)) ]
  else
    [ (List.range solid.normals.length).map
        (fun j => clampRound (facetRGBAccum view solid lights j).1)
    , (List.range solid.normals.length).map
        (fun j => clampRound (facetRGBAccum view solid lights j).2.1)
    , (List.range solid.normals.length).map
        (fun j => clampRound (facetRGBAccum view solid lights j).2.2)
    , List.replicate solid.normals.length (clampRound ((solid.colorA : ℚ))) ]

/-- render/components/project.py `Projector.determineFaceColors`: one color
matrix per solid of the part. -/
def determineFaceColors (view : Vec3) (part : List SolidRepresentation)
    (lights : List LightSource) : List (List (List ℚ)) :=
  part.map (fun solid => determineFaceColorsSolid view solid lights)

end CADVG

namespace CADVG

/-- The (2 × 3) bounding-box matrix of illustrate.py: row 0 holds
`(x_min, x_max, x_extent)` and row 1 holds `(y_min, y_max, y_extent)`. -/
structure BBoxMatrix : Type where
  xMin : ℚ
  xMax : ℚ
  xExt : ℚ
  yMin : ℚ
  yMax : ℚ
  yExt : ℚ
deriving DecidableEq

/-- The in-place update `bb[0,:] *= zoom[0]; bb[1,:] *= zoom[1]` of
`Image.boundingBox`: every entry of a row is multiplied by that row's zoom
factor. -/
def scaleRowsBBox (bb : BBoxMatrix) (zx zy : ℚ) : BBoxMatrix :=
  { xMin := zx * bb.xMin, xMax := zx * bb.xMax, xExt := zx * bb.xExt
  , yMin := zy * bb.yMin, yMax := zy * bb.yMax, yExt := zy * bb.yExt }

/-- The part of illustrate.py `Image` state that `boundingBox` and
`translate` read: the stored bounding-box matrix and the zoom factors. -/
structure ImageState : Type where
  boundingBox : BBoxMatrix
  zoomX : ℚ
  zoomY : ℚ
deriving DecidableEq

/-- illustrate.py `Image.boundingBox`: `bb = self._boundingBox` aliases the
stored matrix and `bb[0,:] *= self._zoom[0]`, `bb[1,:] *= self._zoom[1]`
update it in place, so the method returns the scaled matrix and leaves the
same scaled matrix stored. -/
def imageBoundingBox (st : ImageState) : BBoxMatrix × ImageState :=
  let bb := scaleRowsBBox st.boundingBox st.zoomX st.zoomY
  (bb, { st with boundingBox := bb })

/-- The value returned by the `(n+1)`-st successive call of
`Image.boundingBox` on a state. -/
def imageBoundingBoxNth (st : ImageState) : Nat → BBoxMatrix
  | 0 => (imageBoundingBox st).1
  | n + 1 => imageBoundingBoxNth (imageBoundingBox st).2 n

/-- illustrate.py `Image.translate`: `dx = -bb[0,0]` and `dy = -bb[1,1]`,
that is, the negated x-minimum and the negated y-MAXIMUM. -/
def imageTranslate (bb : BBoxMatrix) : ℚ × ℚ :=
  (-bb.xMin, -bb.yMax)

/-- The value of a `transform="scale(sx, sy) translate(tx, ty)"` attribute
produced by svg.py `SVGHelper.TransformGroup`. -/
structure Transform2 : Type where
  scaleX : ℚ
  scaleY : ℚ
  tX : ℚ
  tY : ℚ
deriving DecidableEq

/-- illustrate.py `Image._write`:
`geomGroup = SVGHelper.TransformGroup((1, -1), self.translate)`. -/
def geomGroupTransform (bb : BBoxMatrix) : Transform2 :=
  { scaleX := 1, scaleY := -1
  , tX := (imageTranslate bb).1, tY := (imageTranslate bb).2 }

/-- Modelled from the SVG specification: a transform list
`scale(sx, sy) translate(tx, ty)` applies the translate first and the scale
second to a point. -/
def applyTransform2 (t : Transform2) (p : Vec2) : Vec2 :=
  (t.scaleX * (p.1 + t.tX), t.scaleY * (p.2 + t.tY))

/-- render/components/geometry.py `PlanarFacet`: projected points and the
RGBA color tuple handed to `RGBA(*c)`. -/
structure PlanarFacetRepr : Type where
  points : List Vec2
  color : List ℚ
deriving DecidableEq

/-- render/components/geometry.py `PlanarMeshRepresentation` state: the
per-solid 2D geometries (as lists of point columns), the per-solid
topologies, the painter-sorted `(2 × N)` id matrix as a list of
`(solidIdx, facetIdx)` columns (`none` until the `sorted` setter ran), and
the per-solid color matrices as lists of facet columns. -/
structure PlanarMeshState : Type where
  geometry : List (List Vec2)
  topology : List (List (List Nat))
  visible : Option (List (ℚ × ℚ))
  colors : List (List (List ℚ))
deriving DecidableEq

/-- render/components/geometry.py `PlanarMeshRepresentation.facet`.  The
`sorted` getter raises when the matrix is unset; the only validation the
method itself performs is `if not facetId in self.sorted[1, :]` — membership
of the facet id in the SECOND row alone, with no check that the pair
`(meshId, facetId)` is one of the sorted columns.  The remaining failure
paths model Python lookup errors: a missing mesh index, a missing facet key
in the topology, an out-of-range vertex id in the geometry columns, a
missing color column, and an `RGBA(*c)` call with an arity other than 3 or 4
(a 3-tuple gets the default alpha 255).  All exceptions are collapsed into
`Except.error ()`. -/
def pmrFacet (st : PlanarMeshState) (meshId facetId : Nat) :
    Except Unit PlanarFacetRepr :=
  match st.visible with
  | none => Except.error ()
  | some vis =>
    if (facetId : ℚ) ∈ vis.map (fun c => c.2) then
      match st.geometry.get? meshId, st.topology.get? meshId with
      | some geom, some topo =>
        match topo.get? facetId with
        | some vids =>
          if vids.all (fun v => decide (v < geom.length)) then
            match st.colors.get? meshId with
            | some cols =>
              match cols.get? facetId with
              | some c =>
                if c.length = 3 then
                  Except.ok { points := vids.map (fun v => geom.getD v (0, 0))
                            , color := c ++ [255] }
                else if c.length = 4 then
                  Except.ok { points := vids.map (fun v => geom.getD v (0, 0))
                            , color := c }
                else Except.error ()
              | none => Except.error ()
            | none => Except.error ()
          else Except.error ()
        | none => Except.error ()
      | _, _ => Except.error ()
    else Except.error ()

/-- render/components/geometry.py `EdgeRepresentationType`. -/
inductive EdgeRepresentationType : Type where
  | VISIBLEOUTLINE : EdgeRepresentationType
  | HIDDENSMOOTHWIRE : EdgeRepresentationType
  | VISIBLESMOOTHWIRE : EdgeRepresentationType
  | HIDDENSHARPWIRE : EdgeRepresentationType
  | VISIBLESHARPWIRE : EdgeRepresentationType
deriving DecidableEq

/-- render/components/geometry.py `PlanarEdgesRepresentation`: an edge class
together with its sampled polylines. -/
structure PlanarEdgesRepr : Type where
  edgeType : EdgeRepresentationType
  wires : List (List Vec2)
deriving DecidableEq

/-- illustrate/components/style.py `LineStyle`: edge class, stroke color,
stroke width and optional dash array. -/
structure LineStyleRepr : Type where
  edgeType : EdgeRepresentationType
  colorR : ℤ
  colorG : ℤ
  colorB : ℤ
  colorA : ℤ
  width : ℚ
  dash : Option (List ℚ)
deriving DecidableEq

/-- The varying attributes that svg.py `SVGHelper.StyleGroup` writes on an
edge `<g>` element (the stroke color, width and dash array; the constant
attributes `fill`, `stroke-linejoin="round"` and `stroke-linecap="round"`
are the same on every such group and are not modelled). -/
structure GroupStyle : Type where
  strokeR : ℤ
  strokeG : ℤ
  strokeB : ℤ
  strokeA : ℤ
  strokewidth : ℚ
  dash : List ℚ
deriving DecidableEq

/-- The SVG element shapes `_writeWiresCollection` produces: `<path>`
elements carrying their polyline, and styled `<g>` elements carrying their
children in document order. -/
inductive SVGElem : Type where
  | path : List Vec2 → SVGElem
  | group : GroupStyle → List SVGElem → SVGElem

/-- The group style obtained from a `LineStyle`: when no dash array is set
the source calls `SVGHelper.StyleGroup(color, width)` whose dash parameter
defaults to `(1, 0)`. -/
def groupStyleOfLine (ls : LineStyleRepr) : GroupStyle :=
  { strokeR := ls.colorR, strokeG := ls.colorG, strokeB := ls.colorB
  , strokeA := ls.colorA, strokewidth := ls.width
  , dash := ls.dash.getD [1, 0] }

/-- illustrate.py `Image._writeWires`: one `<path>` element per polyline. -/
def writeWires (e : PlanarEdgesRepr) : List SVGElem :=
  e.wires.map SVGElem.path

/-- The loop order of illustrate.py `Image._writeWiresCollection`. -/
def hierarchy : List EdgeRepresentationType :=
  [ EdgeRepresentationType.HIDDENSMOOTHWIRE
  , EdgeRepresentationType.HIDDENSHARPWIRE
  , EdgeRepresentationType.VISIBLESMOOTHWIRE
  , EdgeRepresentationType.VISIBLESHARPWIRE
  , EdgeRepresentationType.VISIBLEOUTLINE ]

/-- The body of one `_writeWiresCollection` loop iteration: `next(...)` over
the renderer's edge representations (the first one of the class, if any),
`next(...)` over the registered line styles, and the styled group containing
one path per polyline; `continue` is modelled by `none`. -/
def classGroup (rendEdges : List PlanarEdgesRepr)
    (styles : List LineStyleRepr) (edgeGroup : EdgeRepresentationType) :
    Option SVGElem :=
  match rendEdges.find? (fun e => decide (e.edgeType = edgeGroup)) with
  | none => none
  | some edges =>
    match styles.find? (fun ls => decide (ls.edgeType = edgeGroup)) with
    | none => none
    | some linestyle =>
      some (SVGElem.group (groupStyleOfLine linestyle) (writeWires edges))

/-- illustrate.py `Image._writeWiresCollection`: iterate the edge classes in
hierarchy order, skipping classes without edges or without a style, and
collect the styled groups in that order. -/
def writeWiresCollection (rendEdges : List PlanarEdgesRepr)
    (styles : List LineStyleRepr) : List SVGElem :=
  hierarchy.foldl (fun groups edgeGroup =>
    match classGroup rendEdges styles edgeGroup with
    | none => groups
    | some g => groups ++ [g]) []

/-- All polylines of one edge class held by the renderer. -/
def edgesOfClass (rendEdges : List PlanarEdgesRepr)
    (c : EdgeRepresentationType) : List (List Vec2) :=
  ((rendEdges.filter (fun e => decide (e.edgeType = c))).map
    (fun e => e.wires)).flatten

/-- Modelled from the spec, §4.8: "for each class in the order
`HIDDEN_SMOOTH, HIDDEN_SHARP, VISIBLE_SMOOTH, VISIBLE_SHARP,
VISIBLE_OUTLINE`, emit a `<g>` with the matching LineStyle (skipped if the
class has no edges or no style registered) containing one `<path>` per
polyline". -/
def wiresCollectionSpec (rendEdges : List PlanarEdgesRepr)
    (styles : List LineStyleRepr) : List SVGElem :=
  hierarchy.filterMap (fun c =>
    if edgesOfClass rendEdges c = [] then none
    else
      match styles.find? (fun ls => decide (ls.edgeType = c)) with
      | none => none
      | some ls =>
        some (SVGElem.group (groupStyleOfLine ls)
          ((edgesOfClass rendEdges c).map SVGElem.path)))

/-!
numpy `argsort` with the default `kind='quicksort'` is the introsort of
numpy's `npysort/quicksort.c.src` (`aquicksort`): median-of-3 quicksort on an
index array, leaving segments of at most 16 elements to a final insertion
sort, with a global depth limit `2·⌊log₂ n⌋` after which a segment is
finished by `aheapsort`.  The model below transcribes that algorithm over
rational keys; all array mutations go through `swapL` or the splice in
`insertionSortSeg`, which keeps the index array a permutation of its initial
value on every path (including fuel exhaustion, which the chosen fuel never
reaches on the concrete inputs used here).
-/

/-- Swap of two positions of a list, a no-op when either index is out of
range (the transcription never produces out-of-range swaps on reachable
states; the guard keeps the permutation invariant unconditional). -/
def swapL (l : List Nat) (i j : Nat) : List Nat :=
  if i < l.length ∧ j < l.length then
    (l.set i (l.getD j 0)).set j (l.getD i 0)
  else l

/-- The sort key of the element at position `p` of the index array `t`:
`v[t[p]]` in the C source. -/
def keyAt (kv : List ℚ) (t : List Nat) (p : Nat) : ℚ :=
  kv.getD (t.getD p 0) 0

/-- The `do ++pi; while (v[*pi] < vp)` scan of the partition loop: the first
position strictly above `i` whose key is not below the pivot. -/
def scanUp (kv : List ℚ) (t : List Nat) (vp : ℚ) : Nat → Nat → Nat
  | i, 0 => i + 1
  | i, fuel + 1 =>
    if keyAt kv t (i + 1) < vp then scanUp kv t vp (i + 1) fuel else i + 1

/-- The `do --pj; while (vp < v[*pj])` scan of the partition loop: the first
position strictly below `j` whose key is not above the pivot. -/
def scanDown (kv : List ℚ) (t : List Nat) (vp : ℚ) : Nat → Nat → Nat
  | j, 0 => j - 1
  | j, fuel + 1 =>
    if vp < keyAt kv t (j - 1) then scanDown kv t vp (j - 1) fuel else j - 1

/-- The inner swap loop of the quicksort partition; returns the array and the
final `pi`. -/
def partitionLoop (kv : List ℚ) (t : List Nat) (vp : ℚ) (pi pj : Nat) :
    Nat → List Nat × Nat
  | 0 => (t, pi)
  | fuel + 1 =>
    let pi2 := scanUp kv t vp pi (t.length + 1)
    let pj2 := scanDown kv t vp pj (t.length + 1)
    if pj2 ≤ pi2 then (t, pi2)
    else partitionLoop kv (swapL t pi2 pj2) vp pi2 pj2 fuel

/-- Stable insertion of index `a` into an already-sorted index list: `a` goes
after every element whose key is not above its own, exactly where the
rightward shift loop of the C insertion sort places it. -/
def npInsert (kv : List ℚ) (a : Nat) : List Nat → List Nat
  | [] => [a]
  | b :: l =>
    if kv.getD a 0 < kv.getD b 0 then a :: b :: l else b :: npInsert kv a l

/-- The final insertion sort of one segment `[pl..pr]`; positions outside the
segment are untouched. -/
def insertionSortSeg (kv : List ℚ) (t : List Nat) (pl pr : Nat) : List Nat :=
  if pr < pl then t
  else
    t.take pl ++
      ((t.drop pl).take (pr + 1 - pl)).foldl
        (fun acc x => npInsert kv x acc) [] ++
      t.drop (pr + 1)

/-- One `aheapsort` sift-down on the segment starting at `pl`, with 1-based
heap positions (`a = tosort - 1` in the C source); expressed with swaps,
which produce the same final array as the C hole-shifting loop. -/
def siftDown (kv : List ℚ) (t : List Nat) (pl i n : Nat) : Nat → List Nat
  | 0 => t
  | fuel + 1 =>
    if 2 * i > n ∨ i = 0 then t
    else
      let j := 2 * i
      let j2 := if j < n ∧ keyAt kv t (pl + j - 1) < keyAt kv t (pl + j) then
        j + 1 else j
      if keyAt kv t (pl + i - 1) < keyAt kv t (pl + j2 - 1) then
        siftDown kv (swapL t (pl + i - 1) (pl + j2 - 1)) pl j2 n fuel
      else t

/-- The heapify phase of `aheapsort`: sift positions `n/2` down to `1`. -/
def heapifyAux (kv : List ℚ) (pl n : Nat) : Nat → List Nat → List Nat
  | 0, t => t
  | l + 1, t => heapifyAux kv pl n l (siftDown kv t pl (l + 1) n (n + 2))

/-- The extraction phase of `aheapsort`: repeatedly swap the heap root with
the last element and sift the new root down the shrunk heap. -/
def heapExtract (kv : List ℚ) (pl : Nat) : Nat → List Nat → List Nat
  | 0, t => t
  | 1, t => t
  | m + 2, t =>
    heapExtract kv pl (m + 1)
      (siftDown kv (swapL t (pl + 0) (pl + m + 1)) pl 1 (m + 1) (m + 3))

/-- numpy `aheapsort` on the segment `[pl..pr]` of the index array. -/
def aheapsortSeg (kv : List ℚ) (t : List Nat) (pl pr : Nat) : List Nat :=
  let n := pr + 1 - pl
  heapExtract kv pl n (heapifyAux kv pl n (n / 2) t)

/-- The three conditional swaps that move the median of `t[pl]`, `t[pm]`,
`t[pr]` to position `pm`. -/
def med3Swaps (kv : List ℚ) (t : List Nat) (pl pm pr : Nat) : List Nat :=
  let t1 := if keyAt kv t pm < keyAt kv t pl then swapL t pm pl else t
  let t2 := if keyAt kv t1 pr < keyAt kv t1 pm then swapL t1 pr pm else t1
  if keyAt kv t2 pm < keyAt kv t2 pl then swapL t2 pm pl else t2

/-- One full quicksort partition of the segment `[pl..pr]`: median-of-3 pivot
selection, pivot parked at `pr−1`, the scan-and-swap loop, and the final swap
bringing the pivot to its position `pi`; returns the array and `pi`. -/
def partitionStep (kv : List ℚ) (t : List Nat) (pl pr : Nat) :
    List Nat × Nat :=
  let pm := pl + (pr - pl) / 2
  let t3 := med3Swaps kv t pl pm pr
  let vp := keyAt kv t3 pm
  let t4 := swapL t3 pm (pr - 1)
  let pres := partitionLoop kv t4 vp pl (pr - 1) (t4.length + 2)
  (swapL pres.1 pres.2 (pr - 1), pres.2)

/-- The main loop of numpy `aquicksort`: the current segment `[pl..pr]`, the
explicit segment stack, and the global depth budget.  Segments longer than 16
elements are partitioned around a median-of-3 pivot (the pivot is parked at
`pr−1`), the larger half is pushed, and the smaller half is processed next;
short segments go to the insertion sort and the next segment is popped.  When
the depth budget is exhausted the segment is finished by heapsort instead. -/
def introLoop (kv : List ℚ) :
    Nat → List Nat → Nat → Nat → List (Nat × Nat) → Int → List Nat
  | 0, t, _, _, _, _ => t
  | fuel + 1, t, pl, pr, stack, depth =>
    if 15 < pr - pl then
      if depth < 0 then
        let t2 := aheapsortSeg kv t pl pr
        match stack with
        | [] => t2
        | (pl2, pr2) :: rest => introLoop kv fuel t2 pl2 pr2 rest (depth - 1)
      else
        let pres := partitionStep kv t pl pr
        if pres.2 - pl < pr - pres.2 then
          introLoop kv fuel pres.1 pl (pres.2 - 1) ((pres.2 + 1, pr) :: stack)
            (depth - 1)
        else
          introLoop kv fuel pres.1 (pres.2 + 1) pr ((pl, pres.2 - 1) :: stack)
            (depth - 1)
    else
      let t2 := insertionSortSeg kv t pl pr
      match stack with
      | [] => t2
      | (pl2, pr2) :: rest => introLoop kv fuel t2 pl2 pr2 rest depth

/-- numpy `argsort(keys)` with the default quicksort kind: run the introsort
main loop on the identity index array with depth budget `2·⌊log₂ n⌋`. -/
def npArgsortQ (keys : List ℚ) : List Nat :=
  introLoop keys ((keys.length + 2) * (keys.length + 2) + 4)
    (List.range keys.length) 0 (keys.length - 1) []
    (2 * (Nat.log2 keys.length : Int))

/-- render/components/project.py `Projector._removeAdvertedFaces`: for each
solid, the facet ids are the topology keys `0..F−1` in insertion order, and
an id is kept exactly when `viewᵀ · normals[:, id] ≥ 0` (order preserved by
`argwhere`). -/
def removeAdvertedFaces (view : Vec3)
    (part : List SolidRepresentation) : List (List Nat) :=
  part.map (fun solid =>
    (List.range solid.topology.length).filter
      (fun i => decide (0 ≤ dot3 view (solid.normals.getD i (0, 0, 0)))))

/-- The `(3 × K)` matrix built by `Projector._sortFacesByPosition` as a list
of columns `(d, solidIdx, facetIdx)`: the solids' blocks are concatenated in
order (`hstack`), the running solid index starting at the given value. -/
def buildDistances (view : Vec3) :
    List (List Nat) → List SolidRepresentation → Nat → List (ℚ × ℚ × ℚ)
  | ids :: restIds, solid :: restSolids, index =>
    ids.map (fun i =>
      (dot3 view (solid.centers.getD i (0, 0, 0)), (index : ℚ), (i : ℚ)))
      ++ buildDistances view restIds restSolids (index + 1)
  | _, _, _ => []

/-- render/components/project.py `Projector._sortFacesByPosition`: select the
`(solidIdx, facetIdx)` rows of the stacked distance matrix at the column
order returned by `argsort` on the distance row. -/
def sortFacesByPosition (view : Vec3) (idsList : List (List Nat))
    (part : List SolidRepresentation) : List (ℚ × ℚ) :=
  let triples := buildDistances view idsList part 0
  (npArgsortQ (triples.map (fun c => c.1))).map
    (fun k => ((triples.getD k (0, 0, 0)).2.1, (triples.getD k (0, 0, 0)).2.2))

/-- render/components/project.py `Projector.determineVisibleFaces`: cull the
averted facets, then painter-sort the survivors. -/
def determineVisibleFaces (view : Vec3)
    (part : List SolidRepresentation) : List (ℚ × ℚ) :=
  sortFacesByPosition view (removeAdvertedFaces view part) part

/-- Replacing position `m` by `a` while extracting the old entry to the front
is a permutation of putting `a` in front. -/
theorem consSwapPerm (d : Nat) :
    ∀ (t : List Nat) (m : Nat) (a : Nat), m < t.length →
      List.Perm (t.getD m d :: t.set m a) (a :: t) := by
  intro t
  induction t with
  | nil => intro m a h; simp at h
  | cons b t2 ih =>
    intro m a h
    match m with
    | 0 =>
      simp only [List.getD_cons_zero, List.set_cons_zero]
      exact List.Perm.swap a b t2
    | k + 1 =>
      simp only [List.getD_cons_succ, List.set_cons_succ]
      exact (List.Perm.swap _ _ _).trans
        (((ih k a (by simpa using h)).cons b).trans (List.Perm.swap _ _ _))

/-- Swapping two in-range positions permutes the list. -/
theorem set_set_swap_perm (l : List Nat) :
    ∀ (i j : Nat), i < l.length → j < l.length →
      List.Perm ((l.set i (l.getD j 0)).set j (l.getD i 0)) l := by
  induction l with
  | nil => intro i j hi _; simp at hi
  | cons a t ih =>
    intro i j hi hj
    match i, j with
    | 0, 0 => simp
    | 0, m + 1 =>
      simp only [List.getD_cons_zero, List.getD_cons_succ,
        List.set_cons_zero, List.set_cons_succ]
      exact consSwapPerm 0 t m a (by simpa using hj)
    | k + 1, 0 =>
      simp only [List.getD_cons_zero, List.getD_cons_succ,
        List.set_cons_zero, List.set_cons_succ]
      exact consSwapPerm 0 t k a (by simpa using hi)
    | k + 1, m + 1 =>
      simp only [List.getD_cons_succ, List.set_cons_succ]
      exact (ih k m (by simpa using hi) (by simpa using hj)).cons a

/-- `swapL` always returns a permutation of its input. -/
theorem swapL_perm (l : List Nat) (i j : Nat) : (swapL l i j).Perm l := by
  unfold swapL
  split
  · next h => exact set_set_swap_perm l i j h.1 h.2
  · exact List.Perm.refl l

/-- A conditional swap is a permutation. -/
theorem ite_swapL_perm (c : Prop) [Decidable c] (t : List Nat) (i j : Nat) :
    (if c then swapL t i j else t).Perm t := by
  split
  · exact swapL_perm t i j
  · exact List.Perm.refl t

/-- The partition inner loop permutes the index array. -/
theorem partitionLoop_perm (kv : List ℚ) (vp : ℚ) :
    ∀ (fuel : Nat) (t : List Nat) (pi pj : Nat),
      ((partitionLoop kv t vp pi pj fuel).1).Perm t := by
  intro fuel
  induction fuel with
  | zero => intro t pi pj; exact List.Perm.refl t
  | succ f ih =>
    intro t pi pj
    simp only [partitionLoop]
    split
    · exact List.Perm.refl t
    · exact (ih _ _ _).trans (swapL_perm _ _ _)

/-- The median-of-3 preparation permutes the index array. -/
theorem med3Swaps_perm (kv : List ℚ) (t : List Nat) (pl pm pr : Nat) :
    (med3Swaps kv t pl pm pr).Perm t := by
  unfold med3Swaps
  exact (ite_swapL_perm _ _ _ _).trans
    ((ite_swapL_perm _ _ _ _).trans (ite_swapL_perm _ _ _ _))

/-- A full partition step permutes the index array. -/
theorem partitionStep_perm (kv : List ℚ) (t : List Nat) (pl pr : Nat) :
    ((partitionStep kv t pl pr).1).Perm t := by
  unfold partitionStep
  exact (swapL_perm _ _ _).trans ((partitionLoop_perm _ _ _ _ _ _).trans
    ((swapL_perm _ _ _).trans (med3Swaps_perm _ _ _ _ _)))

/-- Stable insertion permutes (it inserts the new element somewhere). -/
theorem npInsert_perm (kv : List ℚ) (a : Nat) :
    ∀ (l : List Nat), (npInsert kv a l).Perm (a :: l) := by
  intro l
  induction l with
  | nil => exact List.Perm.refl [a]
  | cons b t ih =>
    simp only [npInsert]
    split
    · exact List.Perm.refl _
    · exact (ih.cons b).trans (List.Perm.swap _ _ _)

/-- Folding stable insertions over a segment permutes segment-plus-start. -/
theorem foldl_npInsert_perm (kv : List ℚ) :
    ∀ (seg acc : List Nat),
      (seg.foldl (fun acc x => npInsert kv x acc) acc).Perm (seg ++ acc) := by
  intro seg
  induction seg with
  | nil => intro acc; exact List.Perm.refl acc
  | cons hd tl ih =>
    intro acc
    simp only [List.foldl_cons, List.cons_append]
    exact (ih _).trans
      ((List.Perm.append_left tl (npInsert_perm kv hd acc)).trans
        List.perm_middle)

/-- The segment insertion sort permutes the index array. -/
theorem insertionSortSeg_perm (kv : List ℚ) (t : List Nat) (pl pr : Nat) :
    (insertionSortSeg kv t pl pr).Perm t := by
  unfold insertionSortSeg
  split
  · exact List.Perm.refl t
  · next hnl =>
    have hfold := foldl_npInsert_perm kv ((t.drop pl).take (pr + 1 - pl)) []
    rw [List.append_nil] at hfold
    have hsplit :
        t.take pl ++ (t.drop pl).take (pr + 1 - pl) ++ t.drop (pr + 1) = t := by
      have h1 : (t.drop pl).take (pr + 1 - pl) ++ (t.drop pl).drop (pr + 1 - pl)
          = t.drop pl := List.take_append_drop _ _
      have h2 : (t.drop pl).drop (pr + 1 - pl) = t.drop (pr + 1) := by
        rw [List.drop_drop]
        congr 1
        omega
      rw [List.append_assoc, ← h2, h1, List.take_append_drop]
    refine (List.Perm.append_right _ (List.Perm.append_left _ hfold)).trans ?_
    rw [hsplit]

/-- One heap sift-down permutes the index array. -/
theorem siftDown_perm (kv : List ℚ) (pl n : Nat) :
    ∀ (fuel : Nat) (t : List Nat) (i : Nat),
      (siftDown kv t pl i n fuel).Perm t := by
  intro fuel
  induction fuel with
  | zero => intro t i; exact List.Perm.refl t
  | succ f ih =>
    intro t i
    simp only [siftDown]
    split
    · exact List.Perm.refl t
    · split <;> split <;>
        first
        | exact (ih _ _).trans (swapL_perm _ _ _)
        | exact List.Perm.refl t

/-- The heapify phase permutes the index array. -/
theorem heapifyAux_perm (kv : List ℚ) (pl n : Nat) :
    ∀ (l : Nat) (t : List Nat), (heapifyAux kv pl n l t).Perm t := by
  intro l
  induction l with
  | zero => intro t; exact List.Perm.refl t
  | succ k ih =>
    intro t
    simp only [heapifyAux]
    exact (ih _).trans (siftDown_perm _ _ _ _ _ _)

/-- The heap extraction phase permutes the index array. -/
theorem heapExtract_perm (kv : List ℚ) (pl : Nat) :
    ∀ (m : Nat) (t : List Nat), (heapExtract kv pl m t).Perm t := by
  intro m
  induction m using Nat.strong_induction_on with
  | _ m ih =>
    intro t
    match m with
    | 0 => exact List.Perm.refl t
    | 1 => exact List.Perm.refl t
    | k + 2 =>
      simp only [heapExtract]
      exact (ih (k + 1) (by omega) _).trans
        ((siftDown_perm _ _ _ _ _ _).trans (swapL_perm _ _ _))

/-- The heapsort fallback permutes the index array. -/
theorem aheapsortSeg_perm (kv : List ℚ) (t : List Nat) (pl pr : Nat) :
    (aheapsortSeg kv t pl pr).Perm t := by
  unfold aheapsortSeg
  exact (heapExtract_perm _ _ _ _).trans (heapifyAux_perm _ _ _ _ _)

/-- The introsort main loop permutes the index array on every path. -/
theorem introLoop_perm (kv : List ℚ) :
    ∀ (fuel : Nat) (t : List Nat) (pl pr : Nat) (stack : List (Nat × Nat))
      (depth : Int), (introLoop kv fuel t pl pr stack depth).Perm t := by
  intro fuel
  induction fuel with
  | zero => intro t _ _ _ _; exact List.Perm.refl t
  | succ f ih =>
    intro t pl pr stack depth
    simp only [introLoop]
    split
    · split
      · match stack with
        | [] => exact aheapsortSeg_perm _ _ _ _
        | (pl2, pr2) :: rest =>
          exact (ih _ _ _ _ _).trans (aheapsortSeg_perm _ _ _ _)
      · split
        · exact (ih _ _ _ _ _).trans (partitionStep_perm _ _ _ _)
        · exact (ih _ _ _ _ _).trans (partitionStep_perm _ _ _ _)
    · match stack with
      | [] => exact insertionSortSeg_perm _ _ _ _
      | (pl2, pr2) :: rest =>
        exact (ih _ _ _ _ _).trans (insertionSortSeg_perm _ _ _ _)

/-- numpy argsort returns a permutation of the positions `0..n−1`. -/
theorem npArgsortQ_perm (keys : List ℚ) :
    (npArgsortQ keys).Perm (List.range keys.length) := by
  unfold npArgsortQ
  exact introLoop_perm _ _ _ _ _ _ _

/-- C2: the normals table entry of a quad facet does not equal the normalized
sum of its two sub-triangle normals.  On the non-planar quad with vertices
`(0,0,0), (−4,3,0), (0,0,1), (4,3,0)` the sub-triangle normals are
`(3/5, 4/5, 0)` and `(−3/5, 4/5, 0)`, so the documented formula yields
`(0, 1, 0)`, while the code stores only the first sub-triangle's normal
`(3/5, 4/5, 0)` because the line adding the second one is a discarded
expression statement. -/
theorem c2_quad_normal_drops_second_triangle :
    calculateNormals [(0, 0, 0), (-4, 3, 0), (0, 0, 1), (4, 3, 0)]
      [[0, 1, 2, 3]] = [(3/5, 4/5, 0)] ∧
    quadNormalSpec [(0, 0, 0), (-4, 3, 0), (0, 0, 1), (4, 3, 0)] 0 1 2 3 =
      (0, 1, 0) ∧
    ((3/5 : ℚ), (4/5 : ℚ), (0 : ℚ)) ≠ ((0 : ℚ), (1 : ℚ), (0 : ℚ)) := by
  refine ⟨?_, ?_, ?_⟩ <;> with_unfolding_all decide

/-- C3: with an empty light list, `_determineFaceColors` returns the
`ambient` matrix, which has only three rows (the RGB channels of the base
color tiled across the single facet) — the documented (4 × F) RGBA matrix
with an alpha row is not produced.  The solid here has base color
`(100, 150, 200, 128)` and one facet. -/
theorem c3_zero_lights_returns_three_rows :
    determineFaceColorsSolid (0, 0, 1)
      { topology := [[0, 1, 2]], normals := [(0, 0, 1)]
      , centers := [(0, 0, 0)]
      , colorR := 100, colorG := 150, colorB := 200, colorA := 128
      , ka := 7/10, kd := 7/10, ks := 3/10, alpha := 1/2 } [] =
      [[(100 : ℚ)], [(150 : ℚ)], [(200 : ℚ)]] ∧
    (determineFaceColorsSolid (0, 0, 1)
      { topology := [[0, 1, 2]], normals := [(0, 0, 1)]
      , centers := [(0, 0, 0)]
      , colorR := 100, colorG := 150, colorB := 200, colorA := 128
      , ka := 7/10, kd := 7/10, ks := 3/10, alpha := 1/2 } []).length ≠ 4 := by
  refine ⟨?_, ?_⟩ <;> with_unfolding_all decide

/-- C6 counterexample: the claim quantifies over every solid and the source
validates neither colors nor material coefficients and clamps only from
above, so a solid with `ka = −1` (and otherwise ordinary data) yields the
RGB component `−100`, outside `[0, 255]`. -/
theorem c6_component_can_be_negative :
    (determineFaceColorsSolid (0, 0, 1)
      { topology := [[0, 1, 2]], normals := [(0, 0, 1)]
      , centers := [(0, 0, 0)]
      , colorR := 100, colorG := 100, colorB := 100, colorA := 255
      , ka := -1, kd := 0, ks := 0, alpha := 1 }
      [{ position := (0, 0, 1)
       , colorR := 255, colorG := 255, colorB := 255, colorA := 255 }]) =
      [[(-100 : ℚ)], [(-100 : ℚ)], [(-100 : ℚ)], [(255 : ℚ)]] ∧
    ¬ (0 : ℚ) ≤ -100 := by
  refine ⟨?_, ?_⟩ <;> with_unfolding_all decide

/-- The shader's clamped cosines are nonnegative. -/
theorem shaderCos_nonneg (c : ℚ) : 0 ≤ shaderCos c := by
  unfold shaderCos
  split
  · exact le_refl 0
  · exact le_of_not_lt (by assumption)

/-- The square root model never returns a negative value. -/
theorem ratSqrt_nonneg (q : ℚ) : 0 ≤ ratSqrt q := by
  unfold ratSqrt
  split
  · exact le_refl 0
  · exact div_nonneg (Nat.cast_nonneg _) (Nat.cast_nonneg _)

/-- Within the modelled domain — a nonnegative base and a nonnegative
exponent, where the float power is finite — the model is nonnegative.  The
nonnegative-exponent hypothesis refutes the out-of-domain branch, so no
proof depends on the junk value placed there. -/
theorem fpowQ_nonneg {x : ℚ} (hx : 0 ≤ x) {a : ℚ} (ha : 0 ≤ a) :
    0 ≤ fpowQ x a := by
  unfold fpowQ
  split
  · next h => exact absurd h.2 (not_lt.mpr ha)
  · split
    · exact zpow_nonneg hx _
    · split
      · exact ratSqrt_nonneg _
      · exact zpow_nonneg hx _

/-- Every shader cell is nonnegative when the material coefficients, the base
channel and the light channel are nonnegative. -/
theorem shadeCell_nonneg {solid : SolidRepresentation} {base light : ℤ}
    (nSources : Nat) {cosd rcos : ℚ}
    (hka : 0 ≤ solid.ka) (hkd : 0 ≤ solid.kd) (hks : 0 ≤ solid.ks)
    (halpha : 0 ≤ solid.alpha)
    (hcos : 0 ≤ cosd) (hrcos : 0 ≤ rcos)
    (hbase : 0 ≤ base) (hlight : 0 ≤ light) :
    0 ≤ shadeCell solid nSources cosd rcos base light := by
  unfold shadeCell
  have h1 : 0 ≤ (1 / (nSources : ℚ)) * (base : ℚ) * solid.ka :=
    mul_nonneg (mul_nonneg (by positivity) (by exact_mod_cast hbase)) hka
  have h2 : 0 ≤ solid.kd * cosd * (light : ℚ) :=
    mul_nonneg (mul_nonneg hkd hcos) (by exact_mod_cast hlight)
  have h3 : 0 ≤ (if solid.kd * cosd * (light : ℚ) < 0 then 0
      else solid.ks * fpowQ rcos solid.alpha * (light : ℚ)) := by
    split
    · exact le_refl 0
    · exact mul_nonneg (mul_nonneg hks (fpowQ_nonneg hrcos halpha))
        (by exact_mod_cast hlight)
  linarith

/-- All three components of one light's contribution are nonnegative under
the same hypotheses. -/
theorem lightContribution_nonneg (view : Vec3) {solid : SolidRepresentation}
    (nSources : Nat) (normal center : Vec3) (l : LightSource)
    (hka : 0 ≤ solid.ka) (hkd : 0 ≤ solid.kd) (hks : 0 ≤ solid.ks)
    (halpha : 0 ≤ solid.alpha)
    (hbr : 0 ≤ solid.colorR) (hbg : 0 ≤ solid.colorG) (hbb : 0 ≤ solid.colorB)
    (hlr : 0 ≤ l.colorR) (hlg : 0 ≤ l.colorG) (hlb : 0 ≤ l.colorB) :
    0 ≤ (lightContribution view solid nSources normal center l).1 ∧
    0 ≤ (lightContribution view solid nSources normal center l).2.1 ∧
    0 ≤ (lightContribution view solid nSources normal center l).2.2 := by
  refine ⟨?_, ?_, ?_⟩ <;>
    exact shadeCell_nonneg nSources hka hkd hks halpha (shaderCos_nonneg _)
      (shaderCos_nonneg _) (by assumption) (by assumption)

/-- The RGB accumulator of a facet is componentwise nonnegative when the
material coefficients (shininess included), base color and all light colors
are nonnegative. -/
theorem facetRGBAccum_nonneg (view : Vec3) {solid : SolidRepresentation}
    (lights : List LightSource) (j : Nat)
    (hka : 0 ≤ solid.ka) (hkd : 0 ≤ solid.kd) (hks : 0 ≤ solid.ks)
    (halpha : 0 ≤ solid.alpha)
    (hbr : 0 ≤ solid.colorR) (hbg : 0 ≤ solid.colorG) (hbb : 0 ≤ solid.colorB)
    (hl : ∀ l ∈ lights, 0 ≤ l.colorR ∧ 0 ≤ l.colorG ∧ 0 ≤ l.colorB) :
    0 ≤ (facetRGBAccum view solid lights j).1 ∧
    0 ≤ (facetRGBAccum view solid lights j).2.1 ∧
    0 ≤ (facetRGBAccum view solid lights j).2.2 := by
  unfold facetRGBAccum
  generalize lights.length = nS
  have main : ∀ (ls : List LightSource) (acc : Vec3),
      (∀ l ∈ ls, 0 ≤ l.colorR ∧ 0 ≤ l.colorG ∧ 0 ≤ l.colorB) →
      0 ≤ acc.1 → 0 ≤ acc.2.1 → 0 ≤ acc.2.2 →
      0 ≤ (ls.foldl (fun acc l => addV acc
            (lightContribution view solid nS
              (solid.normals.getD j (0, 0, 0))
              (solid.centers.getD j (0, 0, 0)) l)) acc).1 ∧
      0 ≤ (ls.foldl (fun acc l => addV acc
            (lightContribution view solid nS
              (solid.normals.getD j (0, 0, 0))
              (solid.centers.getD j (0, 0, 0)) l)) acc).2.1 ∧
      0 ≤ (ls.foldl (fun acc l => addV acc
            (lightContribution view solid nS
              (solid.normals.getD j (0, 0, 0))
              (solid.centers.getD j (0, 0, 0)) l)) acc).2.2 := by
    intro ls
    induction ls with
    | nil => intro acc _ h1 h2 h3; exact ⟨h1, h2, h3⟩
    | cons hd tl ih =>
      intro acc hmem h1 h2 h3
      have hhd := hmem hd (List.mem_cons_self hd tl)
      have hc := lightContribution_nonneg view nS
        (solid.normals.getD j (0, 0, 0)) (solid.centers.getD j (0, 0, 0)) hd
        hka hkd hks halpha hbr hbg hbb hhd.1 hhd.2.1 hhd.2.2
      simp only [List.foldl_cons]
      exact ih _ (fun l hl2 => hmem l (List.mem_cons_of_mem hd hl2))
        (add_nonneg h1 hc.1) (add_nonneg h2 hc.2.1) (add_nonneg h3 hc.2.2)
  exact main lights (0, 0, 0) hl (le_refl 0) (le_refl 0) (le_refl 0)

/-- Half-to-even rounding of an integer is that integer. -/
theorem roundHalfEven_intCast (k : ℤ) : roundHalfEven (k : ℚ) = (k : ℚ) := by
  unfold roundHalfEven
  rw [Int.floor_intCast]
  simp

/-- Half-to-even rounding returns an integer-valued rational and stays within
`[0, 255]` whenever its argument does. -/
theorem roundHalfEven_mem {x : ℚ} (h0 : 0 ≤ x) (h255 : x ≤ 255) :
    ∃ k : ℤ, roundHalfEven x = (k : ℚ) ∧ 0 ≤ k ∧ k ≤ 255 := by
  unfold roundHalfEven
  have hf0 : 0 ≤ ⌊x⌋ := Int.floor_nonneg.mpr h0
  have hfle : (⌊x⌋ : ℚ) ≤ x := Int.floor_le x
  have hf255 : ⌊x⌋ ≤ 255 := by
    have : (⌊x⌋ : ℚ) ≤ 255 := le_trans hfle h255
    exact_mod_cast this
  have hsucc : ¬ (x - (⌊x⌋ : ℚ) < 1/2) → ⌊x⌋ + 1 ≤ 255 := by
    intro hr
    push_neg at hr
    by_contra hcon
    push_neg at hcon
    have hf : ⌊x⌋ = 255 := le_antisymm hf255 (by omega)
    rw [hf] at hr
    have : x ≤ 255 := h255
    norm_num at hr
    linarith
  split
  · exact ⟨⌊x⌋, rfl, hf0, hf255⟩
  · split
    · exact ⟨⌊x⌋ + 1, rfl, by omega, hsucc (by assumption)⟩
    · split
      · exact ⟨⌊x⌋, rfl, hf0, hf255⟩
      · exact ⟨⌊x⌋ + 1, rfl, by omega, hsucc (by assumption)⟩

/-- A nonnegative entry survives the clamp-and-round step as an integer in
`[0, 255]`. -/
theorem clampRound_mem {x : ℚ} (h0 : 0 ≤ x) :
    ∃ k : ℤ, clampRound x = (k : ℚ) ∧ 0 ≤ k ∧ k ≤ 255 := by
  unfold clampRound
  split
  · exact ⟨255, roundHalfEven_intCast 255, by omega, by omega⟩
  · exact roundHalfEven_mem h0 (le_of_not_lt (by assumption))

/-- C6 (amended): for every solid whose base-color channels lie in `[0, 255]`
and whose material coefficients `ka, kd, ks` AND shininess `alpha` are
nonnegative, and for every light list whose colors have nonnegative
channels, every entry of the matrix returned by `_determineFaceColors` is an
integer in `[0, 255]`.  The claim as stated fails because the source
validates none of these and clamps only from above: a negative `ka` yields
the component `−100` (the counterexample), and a negative `alpha` with a
zero specular cosine makes the float program compute `0.0 ** alpha = +inf`,
whose product with a zero factor is NaN — hence the `0 ≤ alpha` hypothesis,
which keeps the computation inside `fpowQ`'s modelled (finite) domain. -/
theorem c6_components_in_range (view : Vec3) (solid : SolidRepresentation)
    (lights : List LightSource)
    (hka : 0 ≤ solid.ka) (hkd : 0 ≤ solid.kd) (hks : 0 ≤ solid.ks)
    (halpha : 0 ≤ solid.alpha)
    (hr0 : 0 ≤ solid.colorR) (hr1 : solid.colorR ≤ 255)
    (hg0 : 0 ≤ solid.colorG) (hg1 : solid.colorG ≤ 255)
    (hb0 : 0 ≤ solid.colorB) (hb1 : solid.colorB ≤ 255)
    (ha0 : 0 ≤ solid.colorA) (ha1 : solid.colorA ≤ 255)
    (hl : ∀ l ∈ lights, 0 ≤ l.colorR ∧ 0 ≤ l.colorG ∧ 0 ≤ l.colorB) :
    ∀ row ∈ determineFaceColorsSolid view solid lights, ∀ x ∈ row,
      ∃ k : ℤ, x = (k : ℚ) ∧ 0 ≤ k ∧ k ≤ 255 := by
  intro row hrow x hx
  unfold determineFaceColorsSolid at hrow
  split at hrow
  · simp only [List.mem_cons, List.not_mem_nil, or_false] at hrow
    rcases hrow with h | h | h <;>
      { subst h
        rcases List.eq_of_mem_replicate hx with rfl
        first
        | exact ⟨solid.colorR, rfl, hr0, hr1⟩
        | exact ⟨solid.colorG, rfl, hg0, hg1⟩
        | exact ⟨solid.colorB, rfl, hb0, hb1⟩ }
  · have haccum := fun j => facetRGBAccum_nonneg view lights j
      hka hkd hks halpha hr0 hg0 hb0 hl
    simp only [List.mem_cons, List.not_mem_nil, or_false] at hrow
    rcases hrow with h | h | h | h
    · subst h
      rcases List.mem_map.mp hx with ⟨j, _, rfl⟩
      exact clampRound_mem (haccum j).1
    · subst h
      rcases List.mem_map.mp hx with ⟨j, _, rfl⟩
      exact clampRound_mem (haccum j).2.1
    · subst h
      rcases List.mem_map.mp hx with ⟨j, _, rfl⟩
      exact clampRound_mem (haccum j).2.2
    · subst h
      rcases List.eq_of_mem_replicate hx with rfl
      exact clampRound_mem (by exact_mod_cast ha0)

/-- C6 witness: the amended statement evaluated on a valid solid (base color
`(100,100,100,255)`, material `(0.7, 0.7, 0.3, 2)`) lit by one white light
directly in front of its single facet, at the first entry of the first row
(whose value is 248). -/
theorem c6_components_in_range_witness :
    [(248 : ℚ)] ∈ determineFaceColorsSolid (0, 0, 1)
      { topology := [[0, 1, 2]], normals := [(0, 0, 1)]
      , centers := [(0, 0, 0)]
      , colorR := 100, colorG := 100, colorB := 100, colorA := 255
      , ka := 7/10, kd := 7/10, ks := 3/10, alpha := 2 }
      [{ position := (0, 0, 10)
       , colorR := 255, colorG := 255, colorB := 255, colorA := 255 }] ∧
    (∃ k : ℤ, (248 : ℚ) = (k : ℚ) ∧ 0 ≤ k ∧ k ≤ 255) :=
  ⟨by with_unfolding_all decide,
   c6_components_in_range (0, 0, 1)
    { topology := [[0, 1, 2]], normals := [(0, 0, 1)]
    , centers := [(0, 0, 0)]
    , colorR := 100, colorG := 100, colorB := 100, colorA := 255
    , ka := 7/10, kd := 7/10, ks := 3/10, alpha := 2 }
    [{ position := (0, 0, 10)
     , colorR := 255, colorG := 255, colorB := 255, colorA := 255 }]
    (by norm_num) (by norm_num) (by norm_num) (by norm_num) (by norm_num)
    (by norm_num) (by norm_num) (by norm_num) (by norm_num) (by norm_num)
    (by norm_num) (by norm_num)
    (by intro l hl
        simp only [List.mem_cons, List.not_mem_nil, or_false] at hl
        subst hl
        norm_num)
    [(248 : ℚ)] (by with_unfolding_all decide) (248 : ℚ)
    (by with_unfolding_all decide)⟩

/-- C4 counterexample: constructing a `Camera` from the zero view vector
completes normally; no `InvalidCamera` error is raised. -/
theorem c4_zero_view_constructs :
    (cameraInit (0, 0, 0)).isOk = true := by
  with_unfolding_all decide

/-- C4 (amended): `Camera.__init__` never fails, for any view vector; for the
zero view vector it completes normally and the stored view direction has all
three components NaN (`none`). -/
theorem c4_camera_never_fails (v : Vec3) :
    (cameraInit v).isOk = true ∧
    (v = ((0 : ℚ), (0 : ℚ), (0 : ℚ)) →
      cameraInit v = Except.ok
        { position := (0, 0, 0), view := (none, none, none)
        , horizontal := (none, none, none) }) := by
  constructor
  · rfl
  · intro h
    subst h
    with_unfolding_all rfl

/-- C4 witness: the amended statement at the zero view vector. -/
theorem c4_camera_never_fails_witness :
    (cameraInit (0, 0, 0)).isOk = true ∧
    cameraInit (0, 0, 0) = Except.ok
      { position := (0, 0, 0), view := (none, none, none)
      , horizontal := (none, none, none) } :=
  ⟨(c4_camera_never_fails (0, 0, 0)).1,
   (c4_camera_never_fails (0, 0, 0)).2 rfl⟩

/-- C8 counterexample: on the bounding box with `x_min = 0, x_max = 3` and
`y_min = 1, y_max = 2` the geometry-group translation computed by
`Image.translate` is `(0, -2) = (−x_min, −y_max)`, which is not
`(−x_min, −y_min) = (0, -1)`. -/
theorem c8_translate_uses_y_max :
    imageTranslate
      { xMin := 0, xMax := 3, xExt := 3, yMin := 1, yMax := 2, yExt := 1 } =
      ((0 : ℚ), (-2 : ℚ)) ∧
    imageTranslate
      { xMin := 0, xMax := 3, xExt := 3, yMin := 1, yMax := 2, yExt := 1 } ≠
      (-(0 : ℚ), -(1 : ℚ)) := by
  refine ⟨rfl, ?_⟩
  intro h
  simp only [imageTranslate, Prod.mk.injEq] at h
  norm_num at h

/-- C8 (amended): the geometry group applies `scale(1, −1)` together with the
translation `(−bbox.x_min, −bbox.y_MAX)`; since SVG applies the translation
before the scale, this maps every point of the bounding box into the positive
quadrant `[0, x_extent] × [0, y_extent]`. -/
theorem c8_geom_transform (bb : BBoxMatrix)
    (hx : bb.xExt = bb.xMax - bb.xMin) (hy : bb.yExt = bb.yMax - bb.yMin)
    (p : Vec2) (hp1 : bb.xMin ≤ p.1) (hp2 : p.1 ≤ bb.xMax)
    (hp3 : bb.yMin ≤ p.2) (hp4 : p.2 ≤ bb.yMax) :
    geomGroupTransform bb =
      { scaleX := 1, scaleY := -1, tX := -bb.xMin, tY := -bb.yMax } ∧
    0 ≤ (applyTransform2 (geomGroupTransform bb) p).1 ∧
    (applyTransform2 (geomGroupTransform bb) p).1 ≤ bb.xExt ∧
    0 ≤ (applyTransform2 (geomGroupTransform bb) p).2 ∧
    (applyTransform2 (geomGroupTransform bb) p).2 ≤ bb.yExt := by
  refine ⟨rfl, ?_, ?_, ?_, ?_⟩ <;>
    simp only [applyTransform2, geomGroupTransform, imageTranslate] <;>
    linarith

/-- C8 witness: the amended statement on the counterexample's bounding box
and the interior point `(1, 3/2)`. -/
theorem c8_geom_transform_witness :
    geomGroupTransform
      { xMin := 0, xMax := 3, xExt := 3, yMin := 1, yMax := 2, yExt := 1 } =
      { scaleX := 1, scaleY := -1, tX := -(0 : ℚ), tY := -(2 : ℚ) } ∧
    0 ≤ (applyTransform2 (geomGroupTransform
      { xMin := 0, xMax := 3, xExt := 3, yMin := 1, yMax := 2, yExt := 1 })
      (1, 3/2)).1 ∧
    (applyTransform2 (geomGroupTransform
      { xMin := 0, xMax := 3, xExt := 3, yMin := 1, yMax := 2, yExt := 1 })
      (1, 3/2)).1 ≤
      ({ xMin := 0, xMax := 3, xExt := 3, yMin := 1, yMax := 2, yExt := 1 } :
        BBoxMatrix).xExt ∧
    0 ≤ (applyTransform2 (geomGroupTransform
      { xMin := 0, xMax := 3, xExt := 3, yMin := 1, yMax := 2, yExt := 1 })
      (1, 3/2)).2 ∧
    (applyTransform2 (geomGroupTransform
      { xMin := 0, xMax := 3, xExt := 3, yMin := 1, yMax := 2, yExt := 1 })
      (1, 3/2)).2 ≤
      ({ xMin := 0, xMax := 3, xExt := 3, yMin := 1, yMax := 2, yExt := 1 } :
        BBoxMatrix).yExt :=
  c8_geom_transform _ (by norm_num) (by norm_num) (1, 3/2)
    (by norm_num) (by norm_num) (by norm_num) (by norm_num)

/-- Composing two row scalings multiplies the factors. -/
theorem scaleRowsBBox_comp (bb : BBoxMatrix) (a b c d : ℚ) :
    scaleRowsBBox (scaleRowsBBox bb a b) c d =
      scaleRowsBBox bb (c * a) (d * b) := by
  simp only [scaleRowsBBox, BBoxMatrix.mk.injEq]
  refine ⟨?_, ?_, ?_, ?_, ?_, ?_⟩ <;> ring

/-- C9: `Image.boundingBox` is not a read-only accessor.  Each call stores
the matrix it returns back into the state, the value of the `(n+1)`-st call
is the original box with each row scaled by that row's zoom factor to the
power `n+1`, and when the x-zoom is neither 0 nor 1 and the stored x-extent
is nonzero, two successive calls return different matrices. -/
theorem c9_boundingBox_mutates (st : ImageState) (n : Nat)
    (hz0 : st.zoomX ≠ 0) (hz1 : st.zoomX ≠ 1) (he : st.boundingBox.xExt ≠ 0) :
    (imageBoundingBox st).2.boundingBox = (imageBoundingBox st).1 ∧
    imageBoundingBoxNth st n =
      scaleRowsBBox st.boundingBox (st.zoomX ^ (n + 1)) (st.zoomY ^ (n + 1)) ∧
    imageBoundingBoxNth st (n + 1) ≠ imageBoundingBoxNth st n := by
  have pow_law : ∀ (m : Nat) (s : ImageState),
      imageBoundingBoxNth s m =
        scaleRowsBBox s.boundingBox (s.zoomX ^ (m + 1)) (s.zoomY ^ (m + 1)) := by
    intro m
    induction m with
    | zero =>
      intro s
      simp only [imageBoundingBoxNth, imageBoundingBox, zero_add, pow_one]
    | succ k ih =>
      intro s
      simp only [imageBoundingBoxNth, imageBoundingBox]
      rw [ih]
      simp only [scaleRowsBBox_comp]
      congr 1 <;> ring
  refine ⟨rfl, pow_law n st, ?_⟩
  rw [pow_law n st, pow_law (n + 1) st]
  intro hcon
  have hext := congrArg BBoxMatrix.xExt hcon
  simp only [scaleRowsBBox] at hext
  have hzpow : st.zoomX ^ (n + 1) ≠ 0 := pow_ne_zero _ hz0
  have hfac : st.zoomX ^ (n + 1 + 1) = st.zoomX * st.zoomX ^ (n + 1) := by ring
  rw [hfac] at hext
  have hx : (st.zoomX - 1) * (st.zoomX ^ (n + 1) * st.boundingBox.xExt) = 0 := by
    linear_combination hext
  rcases mul_eq_zero.mp hx with h | h
  · exact hz1 (by linarith)
  · rcases mul_eq_zero.mp h with h2 | h2
    · exact hzpow h2
    · exact he h2

/-- C9 witness: the statement at a concrete state with zoom `(2, 2)` and a
nonzero stored extent, at `n = 0`. -/
theorem c9_boundingBox_mutates_witness :
    (imageBoundingBox
      { boundingBox :=
          { xMin := 0, xMax := 1, xExt := 1, yMin := 0, yMax := 1, yExt := 1 }
      , zoomX := 2, zoomY := 2 }).2.boundingBox =
      (imageBoundingBox
        { boundingBox :=
            { xMin := 0, xMax := 1, xExt := 1, yMin := 0, yMax := 1, yExt := 1 }
        , zoomX := 2, zoomY := 2 }).1 ∧
    imageBoundingBoxNth
      { boundingBox :=
          { xMin := 0, xMax := 1, xExt := 1, yMin := 0, yMax := 1, yExt := 1 }
      , zoomX := 2, zoomY := 2 } 0 =
      scaleRowsBBox
        { xMin := 0, xMax := 1, xExt := 1, yMin := 0, yMax := 1, yExt := 1 }
        ((2 : ℚ) ^ (0 + 1)) ((2 : ℚ) ^ (0 + 1)) ∧
    imageBoundingBoxNth
      { boundingBox :=
          { xMin := 0, xMax := 1, xExt := 1, yMin := 0, yMax := 1, yExt := 1 }
      , zoomX := 2, zoomY := 2 } (0 + 1) ≠
      imageBoundingBoxNth
        { boundingBox :=
            { xMin := 0, xMax := 1, xExt := 1, yMin := 0, yMax := 1, yExt := 1 }
        , zoomX := 2, zoomY := 2 } 0 :=
  c9_boundingBox_mutates _ 0 (by norm_num) (by norm_num) (by norm_num)

/-- C10: `PlanarMeshRepresentation.facet` validates only the facet index,
not the pair.  First conjunct: when `facetId` does not occur in the second
row of the sorted visible-id matrix the call raises.  Second conjunct: when
`facetId` does occur in the second row — even though the pair
`(meshId, facetId)` is NOT one of the sorted visible columns — and the
ordinary lookups succeed, the call completes and returns a facet. -/
theorem c10_facet_validates_only_facet_id (st : PlanarMeshState)
    (vis : List (ℚ × ℚ)) (hvis : st.visible = some vis)
    (meshId facetId : Nat) :
    ((facetId : ℚ) ∉ vis.map (fun c => c.2) →
      pmrFacet st meshId facetId = Except.error ()) ∧
    (∀ geom topo vids cols c,
      (facetId : ℚ) ∈ vis.map (fun c => c.2) →
      ((meshId : ℚ), (facetId : ℚ)) ∉ vis →
      st.geometry.get? meshId = some geom →
      st.topology.get? meshId = some topo →
      topo.get? facetId = some vids →
      (∀ v ∈ vids, v < geom.length) →
      st.colors.get? meshId = some cols →
      cols.get? facetId = some c →
      c.length = 4 →
      (pmrFacet st meshId facetId).isOk = true) := by
  constructor
  · intro hnot
    simp only [pmrFacet, hvis]
    rw [if_neg hnot]
  · intro geom topo vids cols c hmem hpair hgeom htopo hvids hrange hcols hc
      hlen
    have hall : vids.all (fun v => decide (v < geom.length)) = true := by
      rw [List.all_eq_true]
      intro v hv
      exact decide_eq_true (hrange v hv)
    have hne3 : ¬ c.length = 3 := by omega
    simp only [pmrFacet, hvis, hgeom, htopo, hvids, hcols, hc, if_pos hmem,
      hall, if_true, if_neg hne3, if_pos hlen]
    rfl

/-- C10 witness: a scene with two single-facet solids whose sorted matrix
contains only the column `(0, 0)`.  Looking up facet 5 (absent from the
second row) raises; looking up `(meshId, facetId) = (1, 0)` succeeds even
though only solid 0's facet 0 is visible. -/
theorem c10_facet_validates_only_facet_id_witness :
    pmrFacet
      { geometry := [[(0, 0), (1, 0), (0, 1)], [(0, 0), (2, 0), (0, 2)]]
      , topology := [[[0, 1, 2]], [[0, 1, 2]]]
      , visible := some [((0 : ℚ), (0 : ℚ))]
      , colors := [[[10, 20, 30, 255]], [[40, 50, 60, 255]]] } 0 5 =
      Except.error () ∧
    (pmrFacet
      { geometry := [[(0, 0), (1, 0), (0, 1)], [(0, 0), (2, 0), (0, 2)]]
      , topology := [[[0, 1, 2]], [[0, 1, 2]]]
      , visible := some [((0 : ℚ), (0 : ℚ))]
      , colors := [[[10, 20, 30, 255]], [[40, 50, 60, 255]]] } 1 0).isOk =
      true :=
  ⟨(c10_facet_validates_only_facet_id _ [((0 : ℚ), (0 : ℚ))] rfl 0 5).1
      (by with_unfolding_all decide),
   (c10_facet_validates_only_facet_id _ [((0 : ℚ), (0 : ℚ))] rfl 1 0).2
      [(0, 0), (2, 0), (0, 2)] [[0, 1, 2]] [0, 1, 2] [[40, 50, 60, 255]]
      [40, 50, 60, 255]
      (by with_unfolding_all decide) (by with_unfolding_all decide)
      rfl rfl rfl (by decide) rfl rfl rfl⟩

/-- Unrolling the `_writeWiresCollection` accumulator: the loop appends the
groups of the processed classes, in order, behind the accumulator. -/
theorem foldl_classGroup_eq (rendEdges : List PlanarEdgesRepr)
    (styles : List LineStyleRepr) (cs : List EdgeRepresentationType)
    (acc : List SVGElem) :
    cs.foldl (fun groups edgeGroup =>
      match classGroup rendEdges styles edgeGroup with
      | none => groups
      | some g => groups ++ [g]) acc =
      acc ++ cs.filterMap (classGroup rendEdges styles) := by
  induction cs generalizing acc with
  | nil => simp
  | cons hd tl ih =>
    simp only [List.foldl_cons, List.filterMap_cons]
    cases classGroup rendEdges styles hd with
    | none => rw [ih]
    | some g => rw [ih, List.append_assoc]; rfl

/-- When `find?` fails on the class predicate, no edge representation of the
class exists, so the class has no polylines. -/
theorem edgesOfClass_eq_nil (rendEdges : List PlanarEdgesRepr)
    (c : EdgeRepresentationType)
    (h : rendEdges.find? (fun e => decide (e.edgeType = c)) = none) :
    edgesOfClass rendEdges c = [] := by
  unfold edgesOfClass
  rw [List.filter_eq_nil_iff.mpr]
  · rfl
  · intro e he
    exact List.find?_eq_none.mp h e he

/-- When the classes held by the renderer are pairwise distinct, the first
representation of a class found by `next(...)` is the only one, so the
class's polylines are exactly its wires. -/
theorem edgesOfClass_eq_wires {rendEdges : List PlanarEdgesRepr}
    {c : EdgeRepresentationType} {e : PlanarEdgesRepr}
    (hU : (rendEdges.map (fun e => e.edgeType)).Nodup)
    (h : rendEdges.find? (fun e => decide (e.edgeType = c)) = some e) :
    edgesOfClass rendEdges c = e.wires := by
  unfold edgesOfClass
  have hfilter :
      rendEdges.filter (fun e => decide (e.edgeType = c)) = [e] := by
    induction rendEdges with
    | nil => simp at h
    | cons hd tl ih =>
      rw [List.map_cons, List.nodup_cons] at hU
      by_cases hhd : hd.edgeType = c
      · rw [List.find?_cons_of_pos (p := fun (x : PlanarEdgesRepr) => decide (x.edgeType = c)) tl
          (decide_eq_true hhd)] at h
        injection h with h
        subst h
        rw [List.filter_cons_of_pos (p := fun (x : PlanarEdgesRepr) => decide (x.edgeType = c))
          (decide_eq_true hhd)]
        have : tl.filter (fun e => decide (e.edgeType = c)) = [] := by
          rw [List.filter_eq_nil_iff]
          intro x hx hcx
          rw [decide_eq_true_eq] at hcx
          have hmm : x.edgeType ∈ List.map (fun e => e.edgeType) tl :=
            List.mem_map_of_mem _ hx
          rw [hcx, ← hhd] at hmm
          exact hU.1 hmm
        rw [this]
      · rw [List.find?_cons_of_neg (p := fun (x : PlanarEdgesRepr) => decide (x.edgeType = c)) tl
          (by simpa using hhd)] at h
        rw [List.filter_cons_of_neg (p := fun (x : PlanarEdgesRepr) => decide (x.edgeType = c))
          (by simpa using hhd)]
        exact ih hU.2 h
  rw [hfilter]
  simp

/-- C7: under the well-formedness guarantees of the edge producer (at most
one edge representation per class, and no empty representation), the groups
emitted by `_writeWiresCollection` are exactly those described by the spec:
one styled `<g>` per class in the declared ascending order, present exactly
when the class has at least one polyline and a style is registered, and
containing one `<path>` per polyline of the class. -/
theorem c7_wire_groups_match_spec (rendEdges : List PlanarEdgesRepr)
    (styles : List LineStyleRepr)
    (hU : (rendEdges.map (fun e => e.edgeType)).Nodup)
    (hNE : ∀ e ∈ rendEdges, e.wires ≠ []) :
    writeWiresCollection rendEdges styles =
      wiresCollectionSpec rendEdges styles := by
  unfold writeWiresCollection wiresCollectionSpec
  rw [foldl_classGroup_eq, List.nil_append]
  apply List.filterMap_congr
  intro c _
  cases hfind : rendEdges.find? (fun e => decide (e.edgeType = c)) with
  | none =>
    rw [if_pos (edgesOfClass_eq_nil rendEdges c hfind)]
    unfold classGroup
    rw [hfind]
  | some e =>
    have hwires := edgesOfClass_eq_wires hU hfind
    have hne : ¬ edgesOfClass rendEdges c = [] := by
      rw [hwires]
      exact hNE e (List.mem_of_find?_eq_some hfind)
    rw [if_neg hne]
    unfold classGroup
    rw [hfind, hwires]
    rfl

/-- C7 witness: one visible-sharp representation with one polyline and one
registered visible-sharp style. -/
theorem c7_wire_groups_match_spec_witness :
    writeWiresCollection
      [{ edgeType := EdgeRepresentationType.VISIBLESHARPWIRE
       , wires := [[(0, 0), (1, 1)]] }]
      [{ edgeType := EdgeRepresentationType.VISIBLESHARPWIRE
       , colorR := 0, colorG := 0, colorB := 0, colorA := 255
       , width := 1, dash := none }] =
      wiresCollectionSpec
        [{ edgeType := EdgeRepresentationType.VISIBLESHARPWIRE
         , wires := [[(0, 0), (1, 1)]] }]
        [{ edgeType := EdgeRepresentationType.VISIBLESHARPWIRE
         , colorR := 0, colorG := 0, colorB := 0, colorA := 255
         , width := 1, dash := none }] :=
  c7_wire_groups_match_spec _ _ (by decide)
    (by
      intro e he
      simp only [List.mem_cons, List.not_mem_nil, or_false] at he
      subst he
      decide)

/-- C1: the painter sort is not stable.  A part with one solid of 17 facets
whose centroids coincide gives 17 equal depth keys; numpy's default
`argsort` (introsort) then partitions once (17 > 16) and the median-of-3
pivot parking plus the partition swaps permute the tied columns, so the
returned facet ids are not in input order `0..16` as the spec's stable-sort
contract requires. -/
theorem c1_painter_sort_ties_not_input_order :
    determineVisibleFaces (0, 0, 1)
      [{ topology := List.replicate 17 [0, 1, 2]
       , normals := List.replicate 17 (0, 0, 1)
       , centers := List.replicate 17 (0, 0, 0)
       , colorR := 100, colorG := 100, colorB := 100, colorA := 255
       , ka := 7/10, kd := 7/10, ks := 3/10, alpha := 1/2 }] =
      [(0, 0), (0, 14), (0, 13), (0, 12), (0, 11), (0, 10), (0, 9), (0, 15),
       (0, 8), (0, 6), (0, 5), (0, 4), (0, 3), (0, 2), (0, 1), (0, 7),
       (0, 16)] ∧
    (determineVisibleFaces (0, 0, 1)
      [{ topology := List.replicate 17 [0, 1, 2]
       , normals := List.replicate 17 (0, 0, 1)
       , centers := List.replicate 17 (0, 0, 0)
       , colorR := 100, colorG := 100, colorB := 100, colorA := 255
       , ka := 7/10, kd := 7/10, ks := 3/10, alpha := 1/2 }]).map
      (fun c => c.2) ≠
      (List.range 17).map (fun n => (n : ℚ)) := by
  refine ⟨?_, ?_⟩ <;> with_unfolding_all decide

/-- Selecting positions `0..n−1` of a list through `getD` is the list. -/
theorem map_getD_range {α β : Type _} (g : α → β) (d : α) (l : List α) :
    (List.range l.length).map (fun k => g (l.getD k d)) = l.map g := by
  induction l with
  | nil => rfl
  | cons a t ih =>
    rw [List.length_cons, List.range_succ_eq_map]
    simp only [List.map_cons, List.getD_cons_zero, List.map_map]
    congr 1

/-- The columns selected by the argsort order are a permutation of the
`(solidIdx, facetIdx)` projections of the stacked distance columns. -/
theorem sortFacesByPosition_perm (view : Vec3) (idsList : List (List Nat))
    (part : List SolidRepresentation) :
    (sortFacesByPosition view idsList part).Perm
      ((buildDistances view idsList part 0).map
        (fun c => (c.2.1, c.2.2))) := by
  unfold sortFacesByPosition
  have hperm := (npArgsortQ_perm
    ((buildDistances view idsList part 0).map (fun c => c.1))).map
    (fun k => (((buildDistances view idsList part 0).getD k (0, 0, 0)).2.1,
      ((buildDistances view idsList part 0).getD k (0, 0, 0)).2.2))
  rw [List.length_map] at hperm
  refine hperm.trans ?_
  rw [← map_getD_range (fun c => ((c.2.1 : ℚ), (c.2.2 : ℚ)))
    ((0 : ℚ), (0 : ℚ), (0 : ℚ))]

/-- Membership of an id pair among the stacked distance columns, with the
running solid index starting at `k`. -/
theorem mem_buildDistances_iff (view : Vec3) :
    ∀ (idsL : List (List Nat)) (solids : List SolidRepresentation)
      (k s f : Nat),
      ((s : ℚ), (f : ℚ)) ∈ (buildDistances view idsL solids k).map
          (fun c => (c.2.1, c.2.2)) ↔
        ∃ m ids solid, idsL.get? m = some ids ∧ solids.get? m = some solid ∧
          s = k + m ∧ f ∈ ids := by
  intro idsL
  induction idsL with
  | nil =>
    intro solids k s f
    simp [buildDistances]
  | cons ids rest ih =>
    intro solids k s f
    cases solids with
    | nil =>
      simp [buildDistances]
    | cons solid srest =>
      simp only [buildDistances, List.map_append, List.mem_append,
        List.map_map]
      constructor
      · intro h
        rcases h with h | h
        · rcases List.mem_map.mp h with ⟨i, hi, heq⟩
          simp only [Function.comp, Prod.mk.injEq] at heq
          have hs : s = k := by exact_mod_cast heq.1.symm
          have hf : f = i := by exact_mod_cast heq.2.symm
          exact ⟨0, ids, solid, rfl, rfl, by omega, hf ▸ hi⟩
        · rcases (ih srest (k + 1) s f).mp h with
            ⟨m, ids2, solid2, h1, h2, h3, h4⟩
          exact ⟨m + 1, ids2, solid2, by simpa using h1, by simpa using h2,
            by omega, h4⟩
      · rintro ⟨m, ids2, solid2, h1, h2, h3, h4⟩
        cases m with
        | zero =>
          left
          simp only [List.get?_cons_zero, Option.some.injEq] at h1 h2
          subst h1
          subst h2
          refine List.mem_map.mpr ⟨f, h4, ?_⟩
          simp only [Function.comp, Prod.mk.injEq]
          constructor
          · have hsk : k = s := by omega
            exact_mod_cast hsk
          · trivial
        | succ m2 =>
          right
          refine (ih srest (k + 1) s f).mpr
            ⟨m2, ids2, solid2, by simpa using h1, by simpa using h2,
              by omega, h4⟩

/-- The number of stacked distance columns is at most the total facet count
when each id list is drawn from the corresponding topology's key range. -/
theorem buildDistances_length_le (view : Vec3) :
    ∀ (part : List SolidRepresentation) (k : Nat),
      (buildDistances view (removeAdvertedFaces view part) part k).length ≤
        (part.map (fun solid => solid.topology.length)).sum := by
  intro part
  induction part with
  | nil => intro k; simp [removeAdvertedFaces, buildDistances]
  | cons solid rest ih =>
    intro k
    simp only [removeAdvertedFaces, List.map_cons, buildDistances,
      List.length_append, List.length_map, List.sum_cons]
    have h1 : ((List.range solid.topology.length).filter
        (fun i => decide (0 ≤ dot3 view (solid.normals.getD i (0, 0, 0))))).length
        ≤ solid.topology.length := by
      have := List.length_filter_le
        (fun i => decide (0 ≤ dot3 view (solid.normals.getD i (0, 0, 0))))
        (List.range solid.topology.length)
      simpa using this
    have h2 := ih (k + 1)
    simp only [removeAdvertedFaces] at h2
    omega

/-- C5: a `(solidIdx, facetIdx)` pair appears among the columns returned by
`determineVisibleFaces` exactly when the solid exists, the facet id is one of
its topology keys, and the facet's normal satisfies `viewᵀ · n ≥ 0`; and the
number of returned columns is at most the total facet count of the part. -/
theorem c5_visible_iff_front_facing (view : Vec3)
    (part : List SolidRepresentation) :
    (∀ s f : Nat,
      ((s : ℚ), (f : ℚ)) ∈ determineVisibleFaces view part ↔
      ∃ solid, part.get? s = some solid ∧ f < solid.topology.length ∧
        0 ≤ dot3 view (solid.normals.getD f (0, 0, 0))) ∧
    (determineVisibleFaces view part).length ≤
      (part.map (fun solid => solid.topology.length)).sum := by
  constructor
  · intro s f
    unfold determineVisibleFaces
    rw [List.Perm.mem_iff (sortFacesByPosition_perm view
      (removeAdvertedFaces view part) part)]
    rw [mem_buildDistances_iff view (removeAdvertedFaces view part) part 0 s f]
    constructor
    · rintro ⟨m, ids, solid, h1, h2, h3, h4⟩
      have hm : m = s := by omega
      subst hm
      unfold removeAdvertedFaces at h1
      rw [List.get?_map, h2, Option.map_some'] at h1
      injection h1 with h1
      subst h1
      rw [List.mem_filter, List.mem_range] at h4
      exact ⟨solid, h2, h4.1, by simpa using h4.2⟩
    · rintro ⟨solid, h1, h2, h3⟩
      refine ⟨s, (List.range solid.topology.length).filter
        (fun i => decide (0 ≤ dot3 view (solid.normals.getD i (0, 0, 0)))),
        solid, ?_, h1, by omega, ?_⟩
      · unfold removeAdvertedFaces
        rw [List.get?_map, h1, Option.map_some']
      · rw [List.mem_filter, List.mem_range]
        exact ⟨h2, by simpa using h3⟩
  · have hlen : (determineVisibleFaces view part).length =
        (buildDistances view (removeAdvertedFaces view part) part 0).length := by
      have := (sortFacesByPosition_perm view
        (removeAdvertedFaces view part) part).length_eq
      simpa using this
    rw [hlen]
    exact buildDistances_length_le view part 0

/-- C5 witness: the iff and the bound instantiated on a single front-facing
triangle (spec scenario 1): the pair `(0, 0)` is a returned column because
`viewᵀ · n = 1 ≥ 0`, and at most one column is returned. -/
theorem c5_visible_iff_front_facing_witness :
    ((0 : ℚ), (0 : ℚ)) ∈ determineVisibleFaces (0, 0, 1)
      [{ topology := [[0, 1, 2]], normals := [(0, 0, 1)]
       , centers := [(0, 0, 0)]
       , colorR := 100, colorG := 100, colorB := 100, colorA := 255
       , ka := 7/10, kd := 7/10, ks := 3/10, alpha := 1/2 }] ∧
    (determineVisibleFaces (0, 0, 1)
      [{ topology := [[0, 1, 2]], normals := [(0, 0, 1)]
       , centers := [(0, 0, 0)]
       , colorR := 100, colorG := 100, colorB := 100, colorA := 255
       , ka := 7/10, kd := 7/10, ks := 3/10, alpha := 1/2 }]).length ≤
      ([({ topology := [[0, 1, 2]], normals := [(0, 0, 1)]
         , centers := [(0, 0, 0)]
         , colorR := 100, colorG := 100, colorB := 100, colorA := 255
         , ka := 7/10, kd := 7/10, ks := 3/10
         , alpha := 1/2 } : SolidRepresentation)].map
        (fun solid => solid.topology.length)).sum :=
  ⟨((c5_visible_iff_front_facing (0, 0, 1) _).1 0 0).mpr
    ⟨_, rfl, by decide, by with_unfolding_all decide⟩,
   (c5_visible_iff_front_facing (0, 0, 1) _).2⟩

end CADVG
